import Mathlib

/-
Shallow embedding of the asset metadata resolution engine of fairseq2
(src/fairseq2/assets/store.py): layered provider lookup, environment
override merging and base-chain recursion of `StandardAssetStore`.

Python dictionaries are modelled as association lists with unique keys
(`keysNodup`), metadata providers as functions returning `Option Dict`
(`none` models `AssetNotFoundError`), and the recursion of
`_do_retrieve_card` is made total with an explicit fuel argument: a
result of `none` means the Python code would not have returned after
that many recursive calls.
-/

/-- A metadata field value: the scalar subset of Python values the
resolution engine inspects (strings, integers, booleans). -/
inductive Val where
  | str (s : String)
  | int (n : Int)
  | bool (b : Bool)
  deriving Repr, DecidableEq

/-- Python truthiness of a value, as used by `if base_name:` and
`if env := resolver():` in store.py. -/
def Val.truthy : Val → Bool
  | .str s => s != ""
  | .int n => n != 0
  | .bool b => b

/-- Python `isinstance(v, str)`. -/
def Val.isStr : Val → Bool
  | .str _ => true
  | _ => false

/-- Python `type(v)` rendered as in an f-string. -/
def Val.pytypeName : Val → String
  | .str _ => "<class \x27str\x27>"
  | .int _ => "<class \x27int\x27>"
  | .bool _ => "<class \x27bool\x27>"

/-- A metadata record (`Dict[str, Any]` in store.py), as an association
list: insertion order is kept and real records have unique keys. -/
abbrev Dict := List (String × Val)

/-- `d[k]` / `d.get(k)`: the first binding of `k`. -/
def getVal : Dict → String → Option Val
  | [], _ => none
  | kv :: d, k => if kv.1 = k then some kv.2 else getVal d k

/-- `k in d`. -/
def containsKey (d : Dict) (k : String) : Bool :=
  d.any (fun kv => kv.1 == k)

/-- `del d[k]` (on a present key): drop the binding of `k`. -/
def eraseKey (d : Dict) (k : String) : Dict :=
  d.filter (fun kv => !(kv.1 == k))

/-- `d[k] = v`: replace the binding of `k` in place, else append. -/
def setVal : Dict → String → Val → Dict
  | [], k, v => [(k, v)]
  | kv :: d, k, v => if kv.1 = k then (k, v) :: d else kv :: setVal d k v

/-- `d.update(e)`: assign every binding of `e` into `d`, `e` winning. -/
def updateDict (d e : Dict) : Dict :=
  e.foldl (fun acc kv => setVal acc kv.1 kv.2) d

/-- The keys of a record are pairwise distinct (true of every Python
dict, hence of every record a provider can return). -/
def keysNodup (d : Dict) : Prop := (d.map Prod.fst).Nodup

/-- An `AssetMetadataProvider`: `get_metadata(name)` returns a record or
raises `AssetNotFoundError`, modelled by `none`. -/
abbrev AssetMetadataProvider := String → Option Dict

/-- The errors the embedded code can raise: `AssetNotFoundError`,
`AssetCardError`, `ValueError` and `KeyError`. -/
inductive Err where
  | notFound (msg : String)
  | cardError (msg : String)
  | valueError (msg : String)
  | keyError (key : String)
  deriving Repr, DecidableEq

/-- `AssetCard(metadata, base)`: the merged record plus the optional
parent card built from the `base` chain. -/
inductive AssetCard where
  | mk (metadata : Dict) (base : Option AssetCard)

/-- The `metadata` of a card. -/
def AssetCard.metadata : AssetCard → Dict
  | .mk md _ => md

/-- The parent card, when the record declared a `base`. -/
def AssetCard.base : AssetCard → Option AssetCard
  | .mk _ b => b

/-- `StandardAssetStore`: environment resolvers (modelled by the value
each callback returns), global-scope providers and user-scope
providers, each list in registration order. -/
structure StandardAssetStore where
  env_resolvers : List (Option String)
  metadata_providers : List AssetMetadataProvider
  user_metadata_providers : List AssetMetadataProvider

/-- The provider search loop of `_get_metadata`: first provider of the
given list that has the record wins (the caller passes a reversed
registration list). -/
def searchProviders : List AssetMetadataProvider → String → Option Dict
  | [], _ => none
  | p :: ps, name =>
    match p name with
    | some d => some d
    | none => searchProviders ps name

/-- The message of the `AssetNotFoundError` raised by `_get_metadata`. -/
def notFoundMsg (name : String) : String :=
  "An asset with the name \x27" ++ name ++ "\x27 cannot be found."

/-- `StandardAssetStore._get_metadata` (store.py lines 113 to 126):
search user-scope providers most-recently-added-first, then
global-scope providers, and raise `AssetNotFoundError` when no
provider has the name. -/
def _get_metadata (s : StandardAssetStore) (name : String) : Except Err Dict :=
  match searchProviders s.user_metadata_providers.reverse name with
  | some d => Except.ok d
  | none =>
    match searchProviders s.metadata_providers.reverse name with
    | some d => Except.ok d
    | none => Except.error (Err.notFound (notFoundMsg name))

/-- `StandardAssetStore._resolve_envs` (store.py lines 65 to 77): keep
each resolver result that is truthy, in order, then append the
always-present `"user"` pseudo-environment. -/
def _resolve_envs (s : StandardAssetStore) : List String :=
  (s.env_resolvers.foldl
    (fun envs r =>
      match r with
      | some env => if env = "" then envs else envs ++ [env]
      | none => envs)
    []) ++ ["user"]

/-- The environment-merge loop of `_do_retrieve_card` (store.py lines
82 to 92): for each tag, fetch `name@env`, delete its `name` field and
shallow-merge it over the accumulated metadata; `AssetNotFoundError`
is caught and the tag skipped, any other error propagates (`del` on a
record without `name` raises `KeyError`). -/
def mergeEnvMetadata (s : StandardAssetStore) (name : String) :
    List String → Dict → Except Err Dict
  | [], metadata => Except.ok metadata
  | env :: rest, metadata =>
    match _get_metadata s (name ++ "@" ++ env) with
    | Except.ok env_metadata =>
      if containsKey env_metadata "name" then
        mergeEnvMetadata s name rest (updateDict metadata (eraseKey env_metadata "name"))
      else
        Except.error (Err.keyError "name")
    | Except.error (Err.notFound _) => mergeEnvMetadata s name rest metadata
    | Except.error e => Except.error e

/-- The message of the `AssetCardError` raised for a non-string `base`
field (store.py lines 104 to 107). -/
def baseTypeErrMsg (name : String) (v : Val) : String :=
  "The value of the field \x27base\x27 of the asset card \x27" ++ name ++
    "\x27 must be of type `<class \x27str\x27>`, but is of type `" ++
    Val.pytypeName v ++ "` instead."

/-- `StandardAssetStore._do_retrieve_card` (store.py lines 79 to 111),
with fuel bounding the depth of the base-chain recursion: fetch the
base metadata, merge environment variants, then, when the merged
metadata holds a truthy `base`, check it is a string and recurse. -/
def _do_retrieve_card (s : StandardAssetStore) :
    Nat → String → List String → Option (Except Err AssetCard)
  | 0, _, _ => none
  | fuel + 1, name, envs =>
    match _get_metadata s name with
    | Except.error e => some (Except.error e)
    | Except.ok metadata0 =>
      match mergeEnvMetadata s name envs metadata0 with
      | Except.error e => some (Except.error e)
      | Except.ok metadata =>
        match getVal metadata "base" with
        | none => some (Except.ok (AssetCard.mk metadata none))
        | some base_name =>
          if base_name.truthy then
            match base_name with
            | Val.str b =>
              match _do_retrieve_card s fuel b envs with
              | none => none
              | some (Except.error e) => some (Except.error e)
              | some (Except.ok base_card) =>
                some (Except.ok (AssetCard.mk metadata (some base_card)))
            | _ => some (Except.error (Err.cardError (baseTypeErrMsg name base_name)))
          else some (Except.ok (AssetCard.mk metadata none))

/-- The message of the `ValueError` raised for a reserved name. -/
def reservedNameMsg : String :=
  "`name` must not contain the reserved \x27@\x27 character."

/-- `StandardAssetStore.retrieve_card` (store.py lines 56 to 63):
reject a name holding `@`, resolve the environments once, then run
the recursive resolution. -/
def retrieve_card (s : StandardAssetStore) (fuel : Nat) (name : String) :
    Option (Except Err AssetCard) :=
  if name.data.contains '@' then some (Except.error (Err.valueError reservedNameMsg))
  else _do_retrieve_card s fuel name (_resolve_envs s)

/-- Modelled from the spec: the repository version of
`StandardAssetStore.retrieve_card` takes an `ignore_envs` flag (its caller
`AssetListCommandHandler._retrieve_assets` in recipes/assets.py passes it),
which the store.py snapshot lacks; per the spec, when the flag is set
resolution uses the bare name only, so no environment list is built and no
`name@env` variant is probed during the whole base chain. -/
def retrieve_card_ignore (s : StandardAssetStore) (fuel : Nat) (name : String)
    (ignore_envs : Bool) : Option (Except Err AssetCard) :=
  if name.data.contains '@' then some (Except.error (Err.valueError reservedNameMsg))
  else _do_retrieve_card s fuel name (if ignore_envs then [] else _resolve_envs s)

/-- Spec-side reading of the layered lookup: search a scope list of
providers most-recently-added-first (the later an entry, the earlier it
is tried) and return the first hit. -/
def specMostRecentHit : List AssetMetadataProvider → String → Option Dict
  | [], _ => none
  | p :: ps, name =>
    match specMostRecentHit ps name with
    | some d => some d
    | none => p name

/-- First-defined choice between two optional values. -/
def orO {α : Type} : Option α → Option α → Option α
  | some v, _ => some v
  | none, b => b

/-- Spec-side reading of the environment override of a single field:
the value the field gets from the environment variants of `name` under
the tags `envs`, later tags winning, each variant read with its `name`
field dropped; `none` when no found variant defines the field. -/
def specEnvOverride (s : StandardAssetStore) (name : String) :
    List String → String → Option Val
  | [], _ => none
  | env :: rest, k =>
    orO (specEnvOverride s name rest k)
      (match _get_metadata s (name ++ "@" ++ env) with
       | Except.ok e => getVal (eraseKey e "name") k
       | Except.error _ => none)

/-- Every record any provider of the store can return has pairwise
distinct keys (every Python dict does). -/
def StoreWF (s : StandardAssetStore) : Prop :=
  ∀ p : AssetMetadataProvider,
    p ∈ s.user_metadata_providers ∨ p ∈ s.metadata_providers →
      ∀ n d, p n = some d → keysNodup d

/-- Ghost-instrumented twin of `_do_retrieve_card` that also records the
environment list handed to each level of the base-chain recursion; its
first component is proved equal to `_do_retrieve_card`. -/
def _do_retrieve_card_tr (s : StandardAssetStore) :
    Nat → String → List String → Option (Except Err AssetCard) × List (List String)
  | 0, _, _ => (none, [])
  | fuel + 1, name, envs =>
    match _get_metadata s name with
    | Except.error e => (some (Except.error e), [envs])
    | Except.ok metadata0 =>
      match mergeEnvMetadata s name envs metadata0 with
      | Except.error e => (some (Except.error e), [envs])
      | Except.ok metadata =>
        match getVal metadata "base" with
        | none => (some (Except.ok (AssetCard.mk metadata none)), [envs])
        | some base_name =>
          if base_name.truthy then
            match base_name with
            | Val.str b =>
              (match (_do_retrieve_card_tr s fuel b envs).1 with
               | none => none
               | some (Except.error e) => some (Except.error e)
               | some (Except.ok base_card) =>
                 some (Except.ok (AssetCard.mk metadata (some base_card))),
               envs :: (_do_retrieve_card_tr s fuel b envs).2)
            | _ => (some (Except.error (Err.cardError (baseTypeErrMsg name base_name))), [envs])
          else (some (Except.ok (AssetCard.mk metadata none)), [envs])

/-- A store with no resolvers and no providers. -/
def emptyStore : StandardAssetStore := ⟨[], [], []⟩

/-- Global-scope provider defining `"m"`. -/
def provG1 : AssetMetadataProvider := fun n =>
  if n = "m" then some [("name", Val.str "m"), ("src", Val.str "g1")] else none

/-- First user-scope provider defining `"m"`. -/
def provU1 : AssetMetadataProvider := fun n =>
  if n = "m" then some [("name", Val.str "m"), ("src", Val.str "u1")] else none

/-- Second (more recently added) user-scope provider defining `"m"`. -/
def provU2 : AssetMetadataProvider := fun n =>
  if n = "m" then some [("name", Val.str "m"), ("src", Val.str "u2")] else none

/-- Store with one global and two user providers, all defining `"m"`. -/
def storeL : StandardAssetStore := ⟨[], [provG1], [provU1, provU2]⟩

/-- Provider with the base record of the environment-merge example:
`m` is `\x7bname: m, a: 1, b: 2\x7d` and `m@prod` is `\x7bname: m, b: 9\x7d`. -/
def provM : AssetMetadataProvider := fun n =>
  if n = "m" then some [("name", Val.str "m"), ("a", Val.int 1), ("b", Val.int 2)]
  else if n = "m@prod" then some [("name", Val.str "m"), ("b", Val.int 9)]
  else none

/-- Store whose active environments are `["prod", "user"]`. -/
def storeM : StandardAssetStore := ⟨[some "prod"], [provM], []⟩

/-- The card `retrieve_card` builds for `"m"` on `storeM`. -/
def cardM : AssetCard :=
  AssetCard.mk [("name", Val.str "m"), ("a", Val.int 1), ("b", Val.int 9)] none

/-- Provider where the `m@prod` variant carries its own `name` field. -/
def provN : AssetMetadataProvider := fun n =>
  if n = "m" then some [("name", Val.str "m")]
  else if n = "m@prod" then some [("name", Val.str "m@prod"), ("c", Val.int 5)]
  else none

/-- Store where the `m@prod` variant tries to override `name`. -/
def storeN : StandardAssetStore := ⟨[some "prod"], [provN], []⟩

/-- The card `retrieve_card` builds for `"m"` on `storeN`. -/
def cardN : AssetCard :=
  AssetCard.mk [("name", Val.str "m"), ("c", Val.int 5)] none

/-- Store with resolvers returning `"prod"`, nothing, the empty string
and `"x"`. -/
def storeE : StandardAssetStore :=
  ⟨[some "prod", none, some "", some "x"], [provG1], []⟩

/-- Provider whose `"m"` record holds the falsy non-string base `0`. -/
def provB0 : AssetMetadataProvider := fun n =>
  if n = "m" then some [("name", Val.str "m"), ("base", Val.int 0)] else none

/-- Store around `provB0`. -/
def storeB0 : StandardAssetStore := ⟨[], [provB0], []⟩

/-- The card `retrieve_card` builds for `"m"` on `storeB0`: the falsy
base is kept as a flat field and produces no parent. -/
def cardB0 : AssetCard :=
  AssetCard.mk [("name", Val.str "m"), ("base", Val.int 0)] none

/-- Provider whose `"m"` record holds the truthy non-string base `7`. -/
def provB7 : AssetMetadataProvider := fun n =>
  if n = "m" then some [("name", Val.str "m"), ("base", Val.int 7)] else none

/-- Store around `provB7`. -/
def storeB7 : StandardAssetStore := ⟨[], [provB7], []⟩

/-- Provider with the circular base chain `A -> B -> A`. -/
def provCyc : AssetMetadataProvider := fun n =>
  if n = "A" then some [("name", Val.str "A"), ("base", Val.str "B")]
  else if n = "B" then some [("name", Val.str "B"), ("base", Val.str "A")]
  else none

/-- Store around `provCyc`. -/
def storeCyc : StandardAssetStore := ⟨[], [provCyc], []⟩

/-
Helper lemmas shared by the claim theorems.
-/

theorem orO_none_right {α : Type} (a : Option α) : orO a none = a := by
  cases a <;> rfl

theorem orO_assoc {α : Type} (a b c : Option α) :
    orO (orO a b) c = orO a (orO b c) := by
  cases a <;> rfl

theorem searchProviders_append (xs ys : List AssetMetadataProvider) (n : String) :
    searchProviders (xs ++ ys) n = orO (searchProviders xs n) (searchProviders ys n) := by
  induction xs with
  | nil => rfl
  | cons p xs ih =>
    simp only [List.cons_append, searchProviders]
    cases p n <;> simp [orO, ih]

theorem searchProviders_singleton (p : AssetMetadataProvider) (n : String) :
    searchProviders [p] n = p n := by
  simp only [searchProviders]
  cases p n <;> rfl

theorem searchProviders_reverse (ps : List AssetMetadataProvider) (n : String) :
    searchProviders ps.reverse n = specMostRecentHit ps n := by
  induction ps with
  | nil => rfl
  | cons p ps ih =>
    simp only [List.reverse_cons, searchProviders_append, ih, searchProviders_singleton,
      specMostRecentHit]
    cases specMostRecentHit ps n <;> rfl

theorem searchProviders_eq_none (ps : List AssetMetadataProvider) (n : String) :
    searchProviders ps n = none ↔ ∀ p ∈ ps, p n = none := by
  induction ps with
  | nil => simp [searchProviders]
  | cons p ps ih =>
    simp only [searchProviders]
    cases hp : p n with
    | some d => simp [hp]
    | none => simp [ih, hp]

theorem searchProviders_mem (ps : List AssetMetadataProvider) (n : String) (d : Dict)
    (h : searchProviders ps n = some d) : ∃ p ∈ ps, p n = some d := by
  induction ps with
  | nil => simp [searchProviders] at h
  | cons p ps ih =>
    simp only [searchProviders] at h
    cases hp : p n with
    | some e =>
      rw [hp] at h
      exact ⟨p, List.mem_cons_self p ps, hp.trans h⟩
    | none =>
      rw [hp] at h
      obtain ⟨q, hq, hqd⟩ := ih h
      exact ⟨q, List.mem_cons_of_mem p hq, hqd⟩

theorem getVal_none_of_not_mem (d : Dict) (k : String) (h : k ∉ d.map Prod.fst) :
    getVal d k = none := by
  induction d with
  | nil => rfl
  | cons kv d ih =>
    have h1 : ¬ kv.1 = k := by
      intro hk
      exact h (by simp [hk])
    have h2 : k ∉ d.map Prod.fst := by
      intro hk
      exact h (by simp [hk])
    simp [getVal, h1, ih h2]

theorem getVal_setVal (d : Dict) (k k' : String) (v : Val) :
    getVal (setVal d k v) k' = if k' = k then some v else getVal d k' := by
  induction d with
  | nil =>
    by_cases h : k' = k
    · subst h
      simp [setVal, getVal]
    · have h' : ¬ k = k' := fun hh => h hh.symm
      simp [setVal, getVal, h, h']
  | cons kv d ih =>
    by_cases h1 : kv.1 = k
    · by_cases h2 : k' = k
      · subst h2
        simp [setVal, getVal, h1]
      · have h3 : ¬ k = k' := fun hh => h2 hh.symm
        have h4 : ¬ kv.1 = k' := fun hh => h2 (hh.symm.trans h1)
        simp [setVal, getVal, h1, h2, h3, h4]
    · by_cases h2 : k' = k
      · subst h2
        simp [setVal, getVal, h1, ih]
      · simp [setVal, getVal, h1, h2, ih]

theorem keysNodup_erase (d : Dict) (k : String) (h : keysNodup d) :
    keysNodup (eraseKey d k) := by
  unfold keysNodup eraseKey at *
  exact h.sublist (List.Sublist.map Prod.fst (List.filter_sublist d))

theorem getVal_erase (d : Dict) (k0 k : String) :
    getVal (eraseKey d k0) k = if k = k0 then none else getVal d k := by
  induction d with
  | nil => simp [eraseKey, getVal]
  | cons kv d ih =>
    by_cases h1 : kv.1 = k0
    · have hcons : eraseKey (kv :: d) k0 = eraseKey d k0 := by
        simp [eraseKey, List.filter_cons, h1]
      rw [hcons, ih]
      by_cases h2 : k = k0
      · simp [h2]
      · have h3 : ¬ kv.1 = k := fun h => h2 ((h.symm.trans h1) : k = k0)
        simp [getVal, h2, h3]
    · have hcons : eraseKey (kv :: d) k0 = kv :: eraseKey d k0 := by
        simp [eraseKey, List.filter_cons, h1]
      rw [hcons]
      by_cases h2 : kv.1 = k
      · have h3 : ¬ k = k0 := fun h => h1 (h2.trans h)
        simp [getVal, h2, h3]
      · simp only [getVal, if_neg h2]
        exact ih

theorem getVal_update (d e : Dict) (k : String) (he : keysNodup e) :
    getVal (updateDict d e) k = orO (getVal e k) (getVal d k) := by
  induction e generalizing d with
  | nil => simp [updateDict, getVal, orO]
  | cons kv e ih =>
    have hn : kv.1 ∉ e.map Prod.fst ∧ keysNodup e := by
      unfold keysNodup at he
      rw [List.map_cons, List.nodup_cons] at he
      exact he
    have hstep : updateDict d (kv :: e) = updateDict (setVal d kv.1 kv.2) e := rfl
    rw [hstep, ih _ hn.2]
    by_cases h2 : k = kv.1
    · have hnone : getVal e k = none := by
        rw [h2]
        exact getVal_none_of_not_mem e kv.1 hn.1
      have hcons : getVal (kv :: e) k = some kv.2 := by
        simp [getVal, h2.symm]
      rw [hnone, hcons, getVal_setVal, if_pos h2]
      rfl
    · have hs : getVal (setVal d kv.1 kv.2) k = getVal d k := by
        rw [getVal_setVal, if_neg h2]
      have hc : getVal (kv :: e) k = getVal e k := by
        have h3 : ¬ kv.1 = k := fun h => h2 h.symm
        simp [getVal, h3]
      rw [hs, hc]

theorem wf_get_metadata (s : StandardAssetStore) (n : String) (d : Dict)
    (hwf : StoreWF s) (h : _get_metadata s n = Except.ok d) : keysNodup d := by
  unfold _get_metadata at h
  cases hu : searchProviders s.user_metadata_providers.reverse n with
  | some du =>
    rw [hu] at h
    injection h with h
    obtain ⟨p, hp, hpd⟩ := searchProviders_mem _ _ _ hu
    rw [List.mem_reverse] at hp
    exact h ▸ hwf p (Or.inl hp) n du hpd
  | none =>
    rw [hu] at h
    cases hg : searchProviders s.metadata_providers.reverse n with
    | some dg =>
      rw [hg] at h
      injection h with h
      obtain ⟨p, hp, hpd⟩ := searchProviders_mem _ _ _ hg
      rw [List.mem_reverse] at hp
      exact h ▸ hwf p (Or.inr hp) n dg hpd
    | none =>
      rw [hg] at h
      cases h

theorem specEnvOverride_cons_ok (s : StandardAssetStore) (name env : String)
    (rest : List String) (k : String) (e : Dict)
    (hg : _get_metadata s (name ++ "@" ++ env) = Except.ok e) :
    specEnvOverride s name (env :: rest) k =
      orO (specEnvOverride s name rest k) (getVal (eraseKey e "name") k) := by
  simp only [specEnvOverride, hg]

theorem specEnvOverride_cons_err (s : StandardAssetStore) (name env : String)
    (rest : List String) (k : String) (er : Err)
    (hg : _get_metadata s (name ++ "@" ++ env) = Except.error er) :
    specEnvOverride s name (env :: rest) k = specEnvOverride s name rest k := by
  simp only [specEnvOverride, hg]
  exact orO_none_right _

theorem mergeEnv_getVal (s : StandardAssetStore) (name : String) (envs : List String)
    (md md' : Dict) (hwf : StoreWF s)
    (h : mergeEnvMetadata s name envs md = Except.ok md') (k : String) :
    getVal md' k = orO (specEnvOverride s name envs k) (getVal md k) := by
  induction envs generalizing md with
  | nil =>
    simp only [mergeEnvMetadata] at h
    injection h with h
    subst h
    rfl
  | cons env rest ih =>
    cases hg : _get_metadata s (name ++ "@" ++ env) with
    | ok e =>
      simp only [mergeEnvMetadata, hg] at h
      rw [specEnvOverride_cons_ok s name env rest k e hg]
      by_cases hc : containsKey e "name"
      · rw [if_pos hc] at h
        have hkeys : keysNodup (eraseKey e "name") :=
          keysNodup_erase _ _ (wf_get_metadata s _ e hwf hg)
        rw [ih _ h, getVal_update _ _ _ hkeys]
        exact (orO_assoc _ _ _).symm
      · rw [if_neg hc] at h
        cases h
    | error err =>
      rw [specEnvOverride_cons_err s name env rest k err hg]
      cases err with
      | notFound msg =>
        simp only [mergeEnvMetadata, hg] at h
        exact ih _ h
      | cardError msg =>
        simp only [mergeEnvMetadata, hg] at h
        exact Except.noConfusion h
      | valueError msg =>
        simp only [mergeEnvMetadata, hg] at h
        exact Except.noConfusion h
      | keyError key =>
        simp only [mergeEnvMetadata, hg] at h
        exact Except.noConfusion h

theorem do_card_merge (s : StandardAssetStore) (fuel : Nat) (name : String)
    (envs : List String) (card : AssetCard) (bd : Dict)
    (hb : _get_metadata s name = Except.ok bd)
    (h : _do_retrieve_card s (fuel + 1) name envs = some (Except.ok card)) :
    mergeEnvMetadata s name envs bd = Except.ok card.metadata := by
  simp only [_do_retrieve_card, hb] at h
  cases hm : mergeEnvMetadata s name envs bd with
  | error e =>
    simp only [hm] at h
    injection h with h
    exact Except.noConfusion h
  | ok md =>
    simp only [hm] at h
    cases hv : getVal md "base" with
    | none =>
      simp only [hv] at h
      injection h with h
      injection h with h
      rw [← h]
      rfl
    | some v =>
      simp only [hv] at h
      by_cases ht : v.truthy
      · rw [if_pos ht] at h
        cases v with
        | str b =>
          cases hrec : _do_retrieve_card s fuel b envs with
          | none =>
            simp only [hrec] at h
            exact Option.noConfusion h
          | some r =>
            cases r with
            | error e =>
              simp only [hrec] at h
              injection h with h
              exact Except.noConfusion h
            | ok bc =>
              simp only [hrec] at h
              injection h with h
              injection h with h
              rw [← h]
              rfl
        | int n =>
          simp at h
        | bool b =>
          simp at h
      · rw [if_neg ht] at h
        injection h with h
        injection h with h
        rw [← h]
        rfl

theorem retrieve_card_no_at (s : StandardAssetStore) (fuel : Nat) (name : String)
    (hat : name.data.contains '@' = false) :
    retrieve_card s fuel name = _do_retrieve_card s fuel name (_resolve_envs s) := by
  have hcond : ¬ (name.data.contains '@' = true) := by
    rw [hat]
    exact Bool.false_ne_true
  unfold retrieve_card
  exact if_neg hcond

theorem specEnvOverride_name_none (s : StandardAssetStore) (name : String)
    (envs : List String) : specEnvOverride s name envs "name" = none := by
  induction envs with
  | nil => rfl
  | cons env rest ih =>
    cases hg : _get_metadata s (name ++ "@" ++ env) with
    | ok e =>
      rw [specEnvOverride_cons_ok s name env rest "name" e hg, ih, getVal_erase,
        if_pos rfl]
      rfl
    | error er =>
      rw [specEnvOverride_cons_err s name env rest "name" er hg, ih]

theorem resolve_envs_foldl (rs : List (Option String)) (acc : List String) :
    rs.foldl
      (fun envs r =>
        match r with
        | some env => if env = "" then envs else envs ++ [env]
        | none => envs) acc
    = acc ++ rs.filterMap (fun r =>
        match r with
        | some env => if env = "" then none else some env
        | none => none) := by
  induction rs generalizing acc with
  | nil => simp
  | cons r rs ih =>
    cases r with
    | none => simp [List.foldl_cons, List.filterMap_cons, ih]
    | some env =>
      by_cases he : env = ""
      · simp [List.foldl_cons, List.filterMap_cons, he, ih]
      · simp [List.foldl_cons, List.filterMap_cons, he, ih]

theorem provM_wf (n : String) (d : Dict) (h : provM n = some d) : keysNodup d := by
  unfold provM at h
  by_cases h1 : n = "m"
  · rw [if_pos h1] at h
    injection h with h
    rw [← h]
    unfold keysNodup
    decide
  · rw [if_neg h1] at h
    by_cases h2 : n = "m@prod"
    · rw [if_pos h2] at h
      injection h with h
      rw [← h]
      unfold keysNodup
      decide
    · rw [if_neg h2] at h
      exact Option.noConfusion h

theorem storeM_wf : StoreWF storeM := by
  intro p hp n d hpd
  rcases hp with hp | hp
  · have hpu : storeM.user_metadata_providers = [] := rfl
    rw [hpu] at hp
    exact absurd hp (List.not_mem_nil p)
  · have hps : storeM.metadata_providers = [provM] := rfl
    rw [hps, List.mem_singleton] at hp
    rw [hp] at hpd
    exact provM_wf n d hpd

theorem provN_wf (n : String) (d : Dict) (h : provN n = some d) : keysNodup d := by
  unfold provN at h
  by_cases h1 : n = "m"
  · rw [if_pos h1] at h
    injection h with h
    rw [← h]
    unfold keysNodup
    decide
  · rw [if_neg h1] at h
    by_cases h2 : n = "m@prod"
    · rw [if_pos h2] at h
      injection h with h
      rw [← h]
      unfold keysNodup
      decide
    · rw [if_neg h2] at h
      exact Option.noConfusion h

theorem storeN_wf : StoreWF storeN := by
  intro p hp n d hpd
  rcases hp with hp | hp
  · have hpu : storeN.user_metadata_providers = [] := rfl
    rw [hpu] at hp
    exact absurd hp (List.not_mem_nil p)
  · have hps : storeN.metadata_providers = [provN] := rfl
    rw [hps, List.mem_singleton] at hp
    rw [hp] at hpd
    exact provN_wf n d hpd

/-- C1: every name queried through the layered lookup searches
user-scope providers first and then global-scope providers, each scope
most-recently-added-first, the first provider that has the record
winning with its record returned unmerged; when no provider in either
scope has the name, the lookup fails with the not-found error. -/
theorem layered_lookup_user_first (s : StandardAssetStore) (name : String) :
    (_get_metadata s name =
      match specMostRecentHit s.user_metadata_providers name with
      | some d => Except.ok d
      | none =>
        match specMostRecentHit s.metadata_providers name with
        | some d => Except.ok d
        | none => Except.error (Err.notFound (notFoundMsg name)))
    ∧ ((∀ p ∈ s.user_metadata_providers, p name = none) →
        (∀ p ∈ s.metadata_providers, p name = none) →
        _get_metadata s name = Except.error (Err.notFound (notFoundMsg name))) := by
  constructor
  · unfold _get_metadata
    rw [searchProviders_reverse, searchProviders_reverse]
  · intro hu hg
    have h1 : searchProviders s.user_metadata_providers.reverse name = none := by
      rw [searchProviders_eq_none]
      intro p hp
      exact hu p (List.mem_reverse.mp hp)
    have h2 : searchProviders s.metadata_providers.reverse name = none := by
      rw [searchProviders_eq_none]
      intro p hp
      exact hg p (List.mem_reverse.mp hp)
    unfold _get_metadata
    rw [h1, h2]

/-- C1 witness: on `storeL` the most recently added user-scope provider
wins over the earlier user-scope one and over the global one, and on a
store with no providers the lookup fails with the not-found error. -/
theorem layered_lookup_user_first_w :
    _get_metadata storeL "m" = Except.ok [("name", Val.str "m"), ("src", Val.str "u2")]
    ∧ _get_metadata emptyStore "m" = Except.error (Err.notFound (notFoundMsg "m")) := by
  constructor
  · exact (layered_lookup_user_first storeL "m").1.trans (by rfl)
  · exact (layered_lookup_user_first emptyStore "m").2
      (fun p hp => absurd hp (List.not_mem_nil p))
      (fun p hp => absurd hp (List.not_mem_nil p))

/-- C2: environment overrides merge field-by-field: when resolution of
`name` under `envs` succeeds with a card and the layered lookup of the
bare name gives the base record `bd`, each field of the card's merged
metadata is the value of the last found environment variant defining
it (its `name` field dropped), falling back to the base record's value
for fields no found variant defines. -/
theorem env_merge_field_by_field (s : StandardAssetStore) (fuel : Nat)
    (name : String) (envs : List String) (card : AssetCard) (bd : Dict) (k : String)
    (hwf : StoreWF s)
    (h : _do_retrieve_card s (fuel + 1) name envs = some (Except.ok card))
    (hb : _get_metadata s name = Except.ok bd) :
    getVal card.metadata k = orO (specEnvOverride s name envs k) (getVal bd k) :=
  mergeEnv_getVal s name envs bd card.metadata hwf
    (do_card_merge s fuel name envs card bd hb h) k

/-- C2 witness: on `storeM`, base record with `a == 1, b == 2` merged
with the `m@prod` record carrying `b == 9` yields a card with `a == 1`
and `b == 9`. -/
theorem env_merge_field_by_field_w :
    getVal cardM.metadata "a" = some (Val.int 1)
    ∧ getVal cardM.metadata "b" = some (Val.int 9) := by
  constructor
  · exact (env_merge_field_by_field storeM 0 "m" ["prod", "user"] cardM
      [("name", Val.str "m"), ("a", Val.int 1), ("b", Val.int 2)] "a"
      storeM_wf (by rfl) (by rfl)).trans (by rfl)
  · exact (env_merge_field_by_field storeM 0 "m" ["prod", "user"] cardM
      [("name", Val.str "m"), ("a", Val.int 1), ("b", Val.int 2)] "b"
      storeM_wf (by rfl) (by rfl)).trans (by rfl)

/-- C3: the `name` field of every environment variant is dropped before
merging, so the merged card's `name` field always equals the base
record's `name` field, whatever `name` fields the variants carry. -/
theorem env_name_never_overridden (s : StandardAssetStore) (fuel : Nat)
    (name : String) (envs : List String) (card : AssetCard) (bd : Dict)
    (hwf : StoreWF s)
    (h : _do_retrieve_card s (fuel + 1) name envs = some (Except.ok card))
    (hb : _get_metadata s name = Except.ok bd) :
    getVal card.metadata "name" = getVal bd "name" := by
  have hch := mergeEnv_getVal s name envs bd card.metadata hwf
    (do_card_merge s fuel name envs card bd hb h) "name"
  rw [hch, specEnvOverride_name_none]
  rfl

/-- C3 witness: on `storeN`, merging `m@prod` (whose own `name` field is
`"m@prod"`) over the base record of `"m"` yields a card whose `name`
field is still `"m"`. -/
theorem env_name_never_overridden_w :
    getVal cardN.metadata "name" = some (Val.str "m") :=
  (env_name_never_overridden storeN 0 "m" ["prod", "user"] cardN
    [("name", Val.str "m")] storeN_wf (by rfl) (by rfl)).trans (by rfl)

/-- C4: the active environment list is every truthy resolver result in
registration order with the `"user"` pseudo-environment appended last;
the plain `retrieve_card` is the flagged variant with the flag unset,
and with the flag set resolution runs with the bare name only: the
environment list is empty and an empty merge changes nothing. -/
theorem active_envs_and_ignore_flag (s : StandardAssetStore) (fuel : Nat)
    (name : String) (hat : name.data.contains '@' = false) :
    _resolve_envs s =
      (s.env_resolvers.filterMap (fun r =>
        match r with
        | some env => if env = "" then none else some env
        | none => none)) ++ ["user"]
    ∧ retrieve_card s fuel name = retrieve_card_ignore s fuel name false
    ∧ retrieve_card_ignore s fuel name true = _do_retrieve_card s fuel name []
    ∧ (∀ md : Dict, mergeEnvMetadata s name [] md = Except.ok md) := by
  have hcond : ¬ (name.data.contains '@' = true) := by
    rw [hat]
    exact Bool.false_ne_true
  refine ⟨?_, rfl, ?_, fun md => rfl⟩
  · unfold _resolve_envs
    rw [resolve_envs_foldl]
    rw [List.nil_append]
  · unfold retrieve_card_ignore
    exact if_neg hcond

/-- C4 witness: on `storeE` (resolvers returning `"prod"`, nothing, the
empty string and `"x"`) the active list is `["prod", "x", "user"]`, and
the flagged call on `"m"` resolves with no environment tags. -/
theorem active_envs_and_ignore_flag_w :
    _resolve_envs storeE = ["prod", "x", "user"]
    ∧ retrieve_card_ignore storeE 1 "m" true = _do_retrieve_card storeE 1 "m" [] := by
  have h := active_envs_and_ignore_flag storeE 1 "m" (by rfl)
  exact ⟨h.1.trans (by rfl), h.2.2.1⟩

/-- C5: a not-found error raised while probing an environment variant
`name@env` is caught and that tag merely skipped, while a not-found
error for the top-level bare name propagates unchanged out of
`retrieve_card`. -/
theorem notfound_env_skipped_bare_propagates (s : StandardAssetStore) (fuel : Nat)
    (name env : String) (rest : List String) (md : Dict) (msg : String) :
    (name.data.contains '@' = false →
      _get_metadata s name = Except.error (Err.notFound msg) →
      retrieve_card s (fuel + 1) name = some (Except.error (Err.notFound msg)))
    ∧ (_get_metadata s (name ++ "@" ++ env) = Except.error (Err.notFound msg) →
      mergeEnvMetadata s name (env :: rest) md = mergeEnvMetadata s name rest md) := by
  constructor
  · intro hat hnf
    rw [retrieve_card_no_at s (fuel + 1) name hat]
    simp only [_do_retrieve_card, hnf]
  · intro hnf
    simp only [mergeEnvMetadata, hnf]

/-- C5 witness: on the empty store the bare-name not-found error
propagates out of `retrieve_card`, and a missing `m@prod` variant is
skipped leaving the accumulated metadata unchanged. -/
theorem notfound_env_skipped_bare_propagates_w :
    retrieve_card emptyStore 1 "m" = some (Except.error (Err.notFound (notFoundMsg "m")))
    ∧ mergeEnvMetadata emptyStore "m" ["prod"] [] = Except.ok [] := by
  refine ⟨(notfound_env_skipped_bare_propagates emptyStore 0 "m" "prod" [] []
      (notFoundMsg "m")).1 (by rfl) (by rfl),
    ((notfound_env_skipped_bare_propagates emptyStore 0 "m" "prod" [] []
      (notFoundMsg ("m" ++ "@" ++ "prod"))).2 (by rfl)).trans (by rfl)⟩

/-- C6 counterexample: on `storeB0` the merged metadata of `"m"` holds
the non-string `base` value `0`, yet `retrieve_card` returns a card
with no parent instead of failing with a card-content error. -/
theorem base_nonstring_card_error_cex :
    _get_metadata storeB0 "m" = Except.ok [("name", Val.str "m"), ("base", Val.int 0)]
    ∧ Val.isStr (Val.int 0) = false
    ∧ retrieve_card storeB0 1 "m" = some (Except.ok cardB0)
    ∧ cardB0.base = none :=
  ⟨rfl, rfl, rfl, rfl⟩

/-- C6 amended: when the merged metadata holds a truthy non-string
`base` value, `retrieve_card` fails with the card-content error naming
the card being resolved; a falsy non-string `base` raises nothing. -/
theorem base_nonstring_truthy_card_error (s : StandardAssetStore) (fuel : Nat)
    (name : String) (bd md : Dict) (v : Val)
    (hat : name.data.contains '@' = false)
    (hb : _get_metadata s name = Except.ok bd)
    (hm : mergeEnvMetadata s name (_resolve_envs s) bd = Except.ok md)
    (hv : getVal md "base" = some v)
    (ht : v.truthy = true) (hs : Val.isStr v = false) :
    retrieve_card s (fuel + 1) name =
      some (Except.error (Err.cardError (baseTypeErrMsg name v))) := by
  rw [retrieve_card_no_at s (fuel + 1) name hat]
  simp only [_do_retrieve_card, hb, hm, hv]
  rw [if_pos ht]
  cases v with
  | str b => simp [Val.isStr] at hs
  | int n => rfl
  | bool b => rfl

/-- C6 witness: on `storeB7`, whose `"m"` record holds the truthy
non-string base `7`, retrieval fails with the card-content error naming
`"m"`. -/
theorem base_nonstring_truthy_card_error_w :
    retrieve_card storeB7 1 "m" =
      some (Except.error (Err.cardError (baseTypeErrMsg "m" (Val.int 7)))) :=
  base_nonstring_truthy_card_error storeB7 0 "m"
    [("name", Val.str "m"), ("base", Val.int 7)]
    [("name", Val.str "m"), ("base", Val.int 7)] (Val.int 7)
    rfl rfl rfl rfl rfl rfl

/-- C9: a name holding the reserved `@` character is rejected with the
value error for every store, every fuel and independently of the
store's resolvers and providers, so none of them is consulted. -/
theorem reserved_at_rejected (s : StandardAssetStore) (fuel : Nat) (name : String)
    (h : name.data.contains '@' = true) :
    retrieve_card s fuel name = some (Except.error (Err.valueError reservedNameMsg)) := by
  unfold retrieve_card
  rw [h]
  rfl

/-- C9 witness: `retrieve_card("bad@name")` on the empty store is
rejected with the value error. -/
theorem reserved_at_rejected_w :
    retrieve_card emptyStore 3 "bad@name" =
      some (Except.error (Err.valueError reservedNameMsg)) :=
  reserved_at_rejected emptyStore 3 "bad@name" rfl

/-- C10: a falsy `base` value (empty string, zero or false) in the
merged metadata raises no error: the type check is skipped and the
returned card has no parent. -/
theorem falsy_base_no_parent (s : StandardAssetStore) (fuel : Nat)
    (name : String) (bd md : Dict) (v : Val)
    (hat : name.data.contains '@' = false)
    (hb : _get_metadata s name = Except.ok bd)
    (hm : mergeEnvMetadata s name (_resolve_envs s) bd = Except.ok md)
    (hv : getVal md "base" = some v)
    (ht : v.truthy = false) :
    retrieve_card s (fuel + 1) name = some (Except.ok (AssetCard.mk md none)) := by
  have hcond : ¬ (v.truthy = true) := by
    rw [ht]
    exact Bool.false_ne_true
  rw [retrieve_card_no_at s (fuel + 1) name hat]
  simp only [_do_retrieve_card, hb, hm, hv]
  exact if_neg hcond

/-- C10 witness: on `storeB0`, whose `"m"` record holds the falsy
non-string base `0`, retrieval succeeds with a parentless card. -/
theorem falsy_base_no_parent_w :
    retrieve_card storeB0 1 "m" =
      some (Except.ok (AssetCard.mk [("name", Val.str "m"), ("base", Val.int 0)] none)) :=
  falsy_base_no_parent storeB0 0 "m"
    [("name", Val.str "m"), ("base", Val.int 0)]
    [("name", Val.str "m"), ("base", Val.int 0)] (Val.int 0)
    rfl rfl rfl rfl rfl

theorem cyc_aux (fuel : Nat) :
    _do_retrieve_card storeCyc fuel "A" ["user"] = none
    ∧ _do_retrieve_card storeCyc fuel "B" ["user"] = none := by
  induction fuel with
  | zero => exact ⟨rfl, rfl⟩
  | succ n ih =>
    constructor
    · have hstep : _do_retrieve_card storeCyc (n + 1) "A" ["user"] =
        (match _do_retrieve_card storeCyc n "B" ["user"] with
         | none => none
         | some (Except.error e) => some (Except.error e)
         | some (Except.ok c) =>
           some (Except.ok
             (AssetCard.mk [("name", Val.str "A"), ("base", Val.str "B")] (some c)))) := rfl
      rw [hstep, ih.2]
    · have hstep : _do_retrieve_card storeCyc (n + 1) "B" ["user"] =
        (match _do_retrieve_card storeCyc n "A" ["user"] with
         | none => none
         | some (Except.error e) => some (Except.error e)
         | some (Except.ok c) =>
           some (Except.ok
             (AssetCard.mk [("name", Val.str "B"), ("base", Val.str "A")] (some c)))) := rfl
      rw [hstep, ih.1]

/-- C7: on the circular configuration where the record of `"A"` declares
base `"B"` and that of `"B"` declares base `"A"`, the resolution never
terminates: for every recursion budget `retrieve_card` has still not
returned, where the spec requires failing with a dedicated card-content
error instead of recursing forever. -/
theorem circular_base_never_terminates :
    ∀ fuel, retrieve_card storeCyc fuel "A" = none := by
  intro fuel
  have h : retrieve_card storeCyc fuel "A" =
      _do_retrieve_card storeCyc fuel "A" ["user"] := rfl
  rw [h]
  exact (cyc_aux fuel).1

theorem do_tr_spec (s : StandardAssetStore) (envs : List String) :
    ∀ fuel name,
      ((_do_retrieve_card_tr s fuel name envs).1 = _do_retrieve_card s fuel name envs)
      ∧ ∀ e ∈ (_do_retrieve_card_tr s fuel name envs).2, e = envs := by
  intro fuel
  induction fuel with
  | zero =>
    intro name
    constructor
    · rfl
    · intro e he
      simp [_do_retrieve_card_tr] at he
  | succ n ih =>
    intro name
    cases hb : _get_metadata s name with
    | error er =>
      constructor
      · simp only [_do_retrieve_card_tr, _do_retrieve_card, hb]
      · intro e he
        simp only [_do_retrieve_card_tr, hb] at he
        rw [List.mem_singleton] at he
        exact he
    | ok md0 =>
      cases hm : mergeEnvMetadata s name envs md0 with
      | error er =>
        constructor
        · simp only [_do_retrieve_card_tr, _do_retrieve_card, hb, hm]
        · intro e he
          simp only [_do_retrieve_card_tr, hb, hm] at he
          rw [List.mem_singleton] at he
          exact he
      | ok md =>
        cases hv : getVal md "base" with
        | none =>
          constructor
          · simp only [_do_retrieve_card_tr, _do_retrieve_card, hb, hm, hv]
          · intro e he
            simp only [_do_retrieve_card_tr, hb, hm, hv] at he
            rw [List.mem_singleton] at he
            exact he
        | some v =>
          by_cases ht : v.truthy = true
          · cases v with
            | str b =>
              constructor
              · simp only [_do_retrieve_card_tr, _do_retrieve_card, hb, hm, hv, if_pos ht]
                rw [(ih b).1]
              · intro e he
                simp only [_do_retrieve_card_tr, hb, hm, hv, if_pos ht] at he
                rw [List.mem_cons] at he
                rcases he with he | he
                · exact he
                · exact (ih b).2 e he
            | int m =>
              constructor
              · simp only [_do_retrieve_card_tr, _do_retrieve_card, hb, hm, hv, if_pos ht]
              · intro e he
                simp only [_do_retrieve_card_tr, hb, hm, hv, if_pos ht] at he
                rw [List.mem_singleton] at he
                exact he
            | bool bb =>
              constructor
              · simp only [_do_retrieve_card_tr, _do_retrieve_card, hb, hm, hv, if_pos ht]
              · intro e he
                simp only [_do_retrieve_card_tr, hb, hm, hv, if_pos ht] at he
                rw [List.mem_singleton] at he
                exact he
          · constructor
            · simp only [_do_retrieve_card_tr, _do_retrieve_card, hb, hm, hv, if_neg ht]
            · intro e he
              simp only [_do_retrieve_card_tr, hb, hm, hv, if_neg ht] at he
              rw [List.mem_singleton] at he
              exact he

/-- C8: within one `retrieve_card` call the environment list is
computed once and handed unchanged to every level of the base-chain
recursion: the ghost trace of the per-level environment lists only ever
holds the entry list, the trace run returns exactly what
`_do_retrieve_card` returns, and `retrieve_card` enters the recursion
with the list `_resolve_envs` computed once. -/
theorem envs_constant_along_base_chain (s : StandardAssetStore) (fuel : Nat)
    (name : String) (envs : List String) :
    ((_do_retrieve_card_tr s fuel name envs).1 = _do_retrieve_card s fuel name envs)
    ∧ (∀ e ∈ (_do_retrieve_card_tr s fuel name envs).2, e = envs)
    ∧ (name.data.contains '@' = false →
        retrieve_card s fuel name = (_do_retrieve_card_tr s fuel name (_resolve_envs s)).1) := by
  refine ⟨(do_tr_spec s envs fuel name).1, (do_tr_spec s envs fuel name).2, ?_⟩
  intro hat
  rw [retrieve_card_no_at s fuel name hat, (do_tr_spec s (_resolve_envs s) fuel name).1]
